import Mathlib

/-!
Verification of the kinematics repository (src/src/model/robot.py,
src/src/model/scene.py) against its specification.

Python floats are embedded as exact rationals for the implemented,
executable parts of the code (joint storage and validation), and as real
numbers for the forward/inverse kinematics, which the source declares but
leaves unimplemented (every body raises NotImplementedError) and which are
therefore modelled from the specification where so marked.
-/

namespace Kinematics

/-- Embeds the frozen dataclass ArmSectionDescription (robot.py lines 7-21):
radius and length of the cylindrical section, optional joint-angle bounds. -/
structure ArmSectionDescription where
  radius : ℚ
  length : ℚ
  theta_min : Option ℚ := none
  theta_max : Option ℚ := none
  deriving DecidableEq, Repr

/-- Embeds InvalidJointsError (robot.py lines 24-28); each constructor records
the data interpolated into the corresponding message in set_joints. -/
inductive InvalidJointsError where
  | notOneD (shape : List Nat)
  | wrongLength (expected got : Nat)
  | belowMin (idx : Nat) (bound angle : ℚ)
  | aboveMax (idx : Nat) (bound angle : ℚ)
  deriving DecidableEq, Repr

/-- Embeds IKFailure (robot.py lines 31-35). -/
inductive IKFailure where
  | mk
  deriving DecidableEq, Repr

/-- A numpy ndarray of floats, as a shape together with the flattened data;
the number of elements equals the product of the shape. -/
structure NDArray where
  shape : List Nat
  data : List ℚ
  size_eq : data.length = shape.prod

/-- Embeds ndarray.ndim: the number of axes. -/
def NDArray.ndim (a : NDArray) : Nat := a.shape.length

/-- Embeds the state of a RobotArm (robot.py lines 38-63): the section
descriptions fixed at construction and the current joint vector. The deep
copies taken by the Python accessors are identities in this value-level
embedding. -/
structure RobotArm where
  arm_sections : List ArmSectionDescription
  joints : List ℚ
  deriving DecidableEq, Repr

/-- The element of the list comprehension on robot.py lines 57-62: the
midpoint of the range when both bounds are given, 0 otherwise. -/
def defaultJoint (sec : ArmSectionDescription) : ℚ :=
  match sec.theta_min, sec.theta_max with
  | some a, some b => (a + b) / 2
  | _, _ => 0

/-- Embeds RobotArm.__init__ (robot.py lines 46-63): stores the sections and
defaults each joint to the midpoint of its range when both bounds are given,
and to 0 otherwise. The constructor performs no other computation and cannot
fail. -/
def RobotArm.init (arm_sections : List ArmSectionDescription) : RobotArm :=
  { arm_sections := arm_sections
    joints := arm_sections.map defaultJoint }

/-- Embeds the num_sections property (robot.py lines 65-71). -/
def RobotArm.num_sections (arm : RobotArm) : Nat := arm.arm_sections.length

/-- The test of the first if inside the loop of set_joints (robot.py line
105): the section has a minimum and the angle is below it. -/
def violatesMin (angle : ℚ) (sec : ArmSectionDescription) : Bool :=
  match sec.theta_min with
  | some a => angle < a
  | none => false

/-- The test of the second if inside the loop of set_joints (robot.py line
109): the section has a maximum and the angle is above it. -/
def violatesMax (angle : ℚ) (sec : ArmSectionDescription) : Bool :=
  match sec.theta_max with
  | some b => b < angle
  | none => false

/-- The loop of set_joints (robot.py lines 104-112): scan the pairs of angle
and section in order, from position idx, and raise at the first violation,
checking the minimum before the maximum. -/
def findViolation (idx : Nat) :
    List (ℚ × ArmSectionDescription) → Option InvalidJointsError
  | [] => none
  | (angle, sec) :: rest =>
    if violatesMin angle sec then
      some (.belowMin idx ((sec.theta_min).getD 0) angle)
    else if violatesMax angle sec then
      some (.aboveMax idx ((sec.theta_max).getD 0) angle)
    else findViolation (idx + 1) rest

/-- Embeds RobotArm.set_joints (robot.py lines 89-114): reject non-1-D input,
then wrong length, then scan all joints against their limits; only after every
check passes is the stored joint vector replaced. An error value corresponds
to the Python call raising before the assignment on line 114. -/
def RobotArm.set_joints (arm : RobotArm) (new_joints : NDArray) :
    Except InvalidJointsError RobotArm :=
  if new_joints.ndim ≠ 1 then
    .error (.notOneD new_joints.shape)
  else if new_joints.shape.headD 0 ≠ arm.num_sections then
    .error (.wrongLength arm.num_sections (new_joints.shape.headD 0))
  else
    match findViolation 0 (new_joints.data.zip arm.arm_sections) with
    | some e => .error e
    | none => .ok { arm with joints := new_joints.data }

/-- The state of the arm after a call to set_joints: the new state on
success, the unchanged receiver when the call raises (the Python method
mutates self only on its last line). -/
def RobotArm.set_joints_post (arm : RobotArm) (new_joints : NDArray) : RobotArm :=
  match arm.set_joints new_joints with
  | .error _ => arm
  | .ok a => a

/-- The invariant of the spec: the joint vector matches the section list in
length and every joint respects the defined bounds of its section. -/
def RobotArm.jointsWithinLimits (arm : RobotArm) : Bool :=
  arm.joints.length == arm.arm_sections.length &&
    (arm.joints.zip arm.arm_sections).all fun p =>
      !(violatesMin p.1 p.2) && !(violatesMax p.1 p.2)

/-- The arm states reachable from construction on a given section list by any
sequence of set_joints calls, successful or failed. -/
inductive Reachable (secs : List ArmSectionDescription) : RobotArm → Prop where
  | base : Reachable secs (RobotArm.init secs)
  | step (arm : RobotArm) (v : NDArray) :
      Reachable secs arm → Reachable secs (arm.set_joints_post v)

/-- A section whose default joint angle of the constructor lies within its
own defined bounds: midpoint needs ordered bounds, a single bound must
admit 0. -/
def defaultWithinLimits (sec : ArmSectionDescription) : Bool :=
  match sec.theta_min, sec.theta_max with
  | some a, some b => a ≤ b
  | some a, none => a ≤ 0
  | none, some b => 0 ≤ b
  | none, none => true

instance : Inhabited ArmSectionDescription := ⟨⟨0, 0, none, none⟩⟩

theorem findViolation_eq_none_iff (idx : Nat) (l : List (ℚ × ArmSectionDescription)) :
    findViolation idx l = none ↔
      ∀ p ∈ l, violatesMin p.1 p.2 = false ∧ violatesMax p.1 p.2 = false := by
  induction l generalizing idx with
  | nil => simp [findViolation]
  | cons hd tl ih =>
    obtain ⟨angle, sec⟩ := hd
    cases h1 : violatesMin angle sec with
    | true =>
      simp only [findViolation, h1, if_true]
      constructor
      · intro h; cases h
      · intro h
        have := (h (angle, sec) (List.mem_cons_self _ _)).1
        rw [h1] at this; cases this
    | false =>
      cases h2 : violatesMax angle sec with
      | true =>
        simp only [findViolation, h1, h2, Bool.false_eq_true, if_false, if_true]
        constructor
        · intro h; cases h
        · intro h
          have := (h (angle, sec) (List.mem_cons_self _ _)).2
          rw [h2] at this; cases this
      | false =>
        simp only [findViolation, h1, h2, Bool.false_eq_true, if_false, ih]
        constructor
        · intro h p hp
          rcases List.mem_cons.1 hp with rfl | hp
          · exact ⟨h1, h2⟩
          · exact h p hp
        · intro h p hp
          exact h p (List.mem_cons_of_mem _ hp)

/-- A 1-D array of the right length has data of exactly that length. -/
theorem NDArray.data_length (v : NDArray) (h1 : v.ndim = 1) :
    v.data.length = v.shape.headD 0 := by
  rcases hs : v.shape with _ | ⟨k, tl⟩
  · rw [NDArray.ndim, hs] at h1; cases h1
  · rw [NDArray.ndim, hs] at h1
    simp only [List.length_cons, Nat.succ_inj, List.length_eq_zero] at h1
    subst h1
    have := v.size_eq
    rw [hs] at this
    simpa using this

/-- C1: for every arm and every 1-D joint vector of the right length with
some component outside the defined bounds of its section, set_joints raises
InvalidJointsError and the joint state afterwards equals the state before. -/
theorem set_joints_out_of_limits_rejected (arm : RobotArm) (v : NDArray)
    (h1 : v.ndim = 1) (h2 : v.shape.headD 0 = arm.num_sections)
    (i : Nat) (hi : i < arm.num_sections)
    (hviol : violatesMin (v.data.getD i 0) (arm.arm_sections.getD i default) = true ∨
             violatesMax (v.data.getD i 0) (arm.arm_sections.getD i default) = true) :
    (∃ e, arm.set_joints v = Except.error e) ∧ arm.set_joints_post v = arm := by
  have hdl : v.data.length = arm.num_sections := by
    rw [v.data_length h1, h2]
  have hzl : i < (v.data.zip arm.arm_sections).length := by
    rw [List.length_zip, hdl]
    exact Nat.lt_min.2 ⟨hi, hi⟩
  have hdi : i < v.data.length := by omega
  have hsi : i < arm.arm_sections.length := hi
  have hpair : (v.data.zip arm.arm_sections)[i] =
      (v.data.getD i 0, arm.arm_sections.getD i default) := by
    rw [List.getElem_zip]
    rw [List.getD_eq_getElem?_getD, List.getElem?_eq_getElem hdi,
      List.getD_eq_getElem?_getD, List.getElem?_eq_getElem hsi]
    rfl
  have hfv : findViolation 0 (v.data.zip arm.arm_sections) ≠ none := by
    intro hnone
    have hall := (findViolation_eq_none_iff 0 _).1 hnone
      (v.data.zip arm.arm_sections)[i] (List.getElem_mem hzl)
    rw [hpair] at hall
    rcases hviol with hv | hv
    · rw [hall.1] at hv; cases hv
    · rw [hall.2] at hv; cases hv
  rcases hsome : findViolation 0 (v.data.zip arm.arm_sections) with _ | e
  · exact absurd hsome hfv
  · have hset : arm.set_joints v = Except.error e := by
      rw [List.headD_eq_head?_getD] at h2
      simp [RobotArm.set_joints, h1, h2, hsome]
    refine ⟨⟨e, hset⟩, ?_⟩
    rw [RobotArm.set_joints_post, hset]

def limitedArm : RobotArm := RobotArm.init [⟨1, 1, some 0, some 1⟩]

theorem set_joints_out_of_limits_rejected_witness :
    (∃ e, limitedArm.set_joints ⟨[1], [2], rfl⟩ = Except.error e) ∧
    limitedArm.set_joints_post ⟨[1], [2], rfl⟩ = limitedArm :=
  set_joints_out_of_limits_rejected limitedArm ⟨[1], [2], rfl⟩ (by decide) (by decide) 0
    (by decide) (Or.inr (by decide))

/-- C8: for every arm and every 1-D joint vector whose length differs from
the section count, set_joints raises InvalidJointsError and the joint state
is unchanged. -/
theorem set_joints_wrong_length_rejected (arm : RobotArm) (v : NDArray)
    (h1 : v.ndim = 1) (h2 : v.shape.headD 0 ≠ arm.num_sections) :
    arm.set_joints v =
      Except.error (.wrongLength arm.num_sections (v.shape.headD 0)) ∧
    arm.set_joints_post v = arm := by
  have hset : arm.set_joints v =
      Except.error (.wrongLength arm.num_sections (v.shape.headD 0)) := by
    rw [List.headD_eq_head?_getD] at h2
    simp [RobotArm.set_joints, h1, h2]
  exact ⟨hset, by rw [RobotArm.set_joints_post, hset]⟩

theorem set_joints_wrong_length_rejected_witness :
    limitedArm.set_joints ⟨[2], [0, 0], rfl⟩ =
      Except.error (.wrongLength limitedArm.num_sections
        ((⟨[2], [0, 0], rfl⟩ : NDArray).shape.headD 0)) ∧
    limitedArm.set_joints_post ⟨[2], [0, 0], rfl⟩ = limitedArm :=
  set_joints_wrong_length_rejected limitedArm ⟨[2], [0, 0], rfl⟩ (by decide) (by decide)

/-- C10: for every arm and every input array that is not 1-D, set_joints
raises InvalidJointsError carrying the shape (so the dimensionality check
fires before the length and limit checks) and the joint state is unchanged,
whatever the element count of the array. -/
theorem set_joints_not_one_dim_rejected (arm : RobotArm) (v : NDArray)
    (h : v.ndim ≠ 1) :
    arm.set_joints v = Except.error (.notOneD v.shape) ∧
    arm.set_joints_post v = arm := by
  have hset : arm.set_joints v = Except.error (.notOneD v.shape) := by
    simp [RobotArm.set_joints, h]
  exact ⟨hset, by rw [RobotArm.set_joints_post, hset]⟩

theorem set_joints_not_one_dim_rejected_witness :
    limitedArm.set_joints ⟨[1, 1], [5], rfl⟩ =
      Except.error (.notOneD [1, 1]) ∧
    limitedArm.set_joints_post ⟨[1, 1], [5], rfl⟩ = limitedArm :=
  set_joints_not_one_dim_rejected limitedArm ⟨[1, 1], [5], rfl⟩ (by decide)

/-- C6: the constructor defaults each joint to the midpoint of its bounds
when both are defined and to 0 otherwise; in particular bounds -1 and 3 give
the default joint 1. -/
theorem default_joints_midpoint_or_zero :
    (∀ secs : List ArmSectionDescription,
      (RobotArm.init secs).joints = secs.map fun sec =>
        match sec.theta_min, sec.theta_max with
        | some a, some b => (a + b) / 2
        | _, _ => 0) ∧
    (RobotArm.init [⟨1, 1, some (-1), some 3⟩]).joints = [1] :=
  ⟨fun _ => rfl, by simp [RobotArm.init, defaultJoint]; norm_num⟩

def badSection : ArmSectionDescription := ⟨-1, -5, some 3, some 1⟩

/-- C7 counterexample: the constructor contains no validation and cannot
fail; a section that violates all three documented invariants (radius and
length nonpositive, minimum above maximum) is accepted and stored verbatim
rather than rejected. -/
theorem invalid_section_accepted :
    (RobotArm.init [badSection]).arm_sections = [badSection] ∧
    (RobotArm.init [badSection]).num_sections = 1 ∧
    badSection.radius ≤ 0 ∧ badSection.length ≤ 0 ∧
    badSection.theta_min = some 3 ∧ badSection.theta_max = some 1 ∧ ¬((3 : ℚ) ≤ 1) := by
  refine ⟨rfl, rfl, ?_, ?_, rfl, rfl, ?_⟩ <;> norm_num [badSection]

/-- C7 amended: the constructor validates nothing; every section list,
whether or not it satisfies the documented per-section invariants, is
accepted and stored unchanged, with one default joint per section. -/
theorem construction_accepts_every_list (secs : List ArmSectionDescription) :
    (RobotArm.init secs).arm_sections = secs ∧
    (RobotArm.init secs).joints.length = secs.length :=
  ⟨rfl, by simp [RobotArm.init]⟩

def lowerOnlySection : ArmSectionDescription := ⟨1, 1, some 1, none⟩

/-- C2 counterexample: a section with only a lower bound defaults its joint
to 0, below that bound, so the freshly constructed arm already violates the
invariant that every joint lies within the defined limits of its section. -/
theorem default_joint_single_bound_violation :
    (RobotArm.init [lowerOnlySection]).joints = [0] ∧
    lowerOnlySection.theta_min = some 1 ∧
    (RobotArm.init [lowerOnlySection]).jointsWithinLimits = false := by
  refine ⟨rfl, rfl, ?_⟩
  simp [RobotArm.jointsWithinLimits, RobotArm.init, defaultJoint, violatesMin,
    lowerOnlySection]

/-- The default joint of a section respects the defined bounds of that
section whenever the section has ordered bounds or its single bound
admits 0. -/
theorem default_joint_ok (sec : ArmSectionDescription)
    (h : defaultWithinLimits sec = true) :
    (!(violatesMin (defaultJoint sec) sec) && !(violatesMax (defaultJoint sec) sec)) = true := by
  obtain ⟨r, len, tmin, tmax⟩ := sec
  rcases tmin with _ | a <;> rcases tmax with _ | b <;>
      simp_all [defaultWithinLimits, defaultJoint, violatesMin, violatesMax]
  all_goals first
  | linarith
  | constructor <;> linarith

/-- A freshly constructed arm satisfies the joint-limit invariant provided
every section has ordered bounds or a single bound admitting 0. -/
theorem init_jointsWithinLimits (secs : List ArmSectionDescription)
    (hs : ∀ sec ∈ secs, defaultWithinLimits sec = true) :
    (RobotArm.init secs).jointsWithinLimits = true := by
  simp only [RobotArm.jointsWithinLimits, RobotArm.init, List.length_map,
    beq_self_eq_true, Bool.true_and]
  have hzip : (secs.map defaultJoint).zip secs =
      secs.map fun s => (defaultJoint s, s) := by
    have := List.zip_map' defaultJoint (fun s => s) secs
    simpa using this
  rw [hzip, List.all_eq_true]
  intro p hp
  obtain ⟨s, hsm, rfl⟩ := List.mem_map.1 hp
  exact default_joint_ok s (hs s hsm)

/-- A successful set_joints call leaves the arm satisfying the joint-limit
invariant: every check has passed for every joint before the assignment. -/
theorem set_joints_ok_within (arm arm2 : RobotArm) (v : NDArray)
    (h : arm.set_joints v = Except.ok arm2) : arm2.jointsWithinLimits = true := by
  unfold RobotArm.set_joints at h
  split at h
  · exact Except.noConfusion h
  · rename_i hdim
    split at h
    · exact Except.noConfusion h
    · rename_i hlen
      split at h
      · exact Except.noConfusion h
      · rename_i hfv
        cases h
        have hd1 : v.ndim = 1 := by omega
        have hdl : v.data.length = arm.num_sections := by
          rw [v.data_length hd1]
          omega
        simp only [RobotArm.jointsWithinLimits]
        rw [Bool.and_eq_true]
        constructor
        · exact beq_iff_eq.2 hdl
        · rw [List.all_eq_true]
          intro p hp
          have := (findViolation_eq_none_iff 0 _).1 hfv p hp
          rw [this.1, this.2]
          rfl

/-- C2 amended: on any section list in which every section either has both
bounds defined with minimum at most maximum, or has its single defined bound
admit 0, every arm state reachable from construction through set_joints
calls (successful or failed) keeps each joint within the defined bounds of
its section; without the condition on singly bounded sections the invariant
already fails at construction. -/
theorem reachable_jointsWithinLimits (secs : List ArmSectionDescription)
    (hs : ∀ sec ∈ secs, defaultWithinLimits sec = true)
    (arm : RobotArm) (h : Reachable secs arm) :
    arm.jointsWithinLimits = true := by
  induction h with
  | base => exact init_jointsWithinLimits secs hs
  | step a v ha ih =>
    rw [RobotArm.set_joints_post]
    rcases hsv : a.set_joints v with e | a2
    · exact ih
    · exact set_joints_ok_within a a2 v hsv

theorem reachable_jointsWithinLimits_witness :
    (RobotArm.init [⟨1, 1, some 0, some 2⟩]).jointsWithinLimits = true :=
  reachable_jointsWithinLimits [⟨1, 1, some 0, some 2⟩]
    (by intro sec hsec; rw [List.mem_singleton] at hsec; subst hsec; norm_num [defaultWithinLimits])
    _ Reachable.base

/-! Forward and inverse kinematics. The bodies of get_tip_pose,
get_tip_position, get_joints_from_pose and set_tip_pose in robot.py all raise
NotImplementedError, so the geometry below is modelled from the
specification, as marked on each definition. Angles and coordinates are real
numbers; lengths come from the (rational) section descriptions by cast.
Unlike the executable joint-state model above, this part is noncomputable,
exactly as the corresponding source methods are unimplemented. -/

noncomputable section

open scoped Matrix

abbrev Mat3 := Matrix (Fin 3) (Fin 3) ℝ

abbrev Vec3 := EuclideanSpace ℝ (Fin 3)

/-- A plain function on indices, considered as a Euclidean 3-vector. -/
def toVec3 (f : Fin 3 → ℝ) : Vec3 := f

/-- A 4x4 homogeneous transform, represented by its rotation block and its
translation column (the bottom row 0 0 0 1 is implicit). -/
@[ext]
structure HPose where
  rot : Mat3
  trans : Vec3

/-- Composition of homogeneous transforms: rotations multiply, the left
transform moves the right translation. -/
def HPose.comp (p q : HPose) : HPose :=
  ⟨p.rot * q.rot, toVec3 (p.rot.mulVec q.trans) + p.trans⟩

/-- The identity transform. -/
def HPose.identity : HPose := ⟨1, 0⟩

/-- Rotation by θ about the z axis. -/
def Rz (θ : ℝ) : Mat3 :=
  !![Real.cos θ, -Real.sin θ, 0; Real.sin θ, Real.cos θ, 0; 0, 0, 1]

/-- Rotation by θ about the x axis. -/
def Rx (θ : ℝ) : Mat3 :=
  !![1, 0, 0; 0, Real.cos θ, -Real.sin θ; 0, Real.sin θ, Real.cos θ]

/-- The vector (L, 0, 0). -/
def exV (L : ℝ) : Vec3 := toVec3 ![L, 0, 0]

/-- The pure rotation R_z(θ) as a homogeneous transform. -/
def rotZ (θ : ℝ) : HPose := ⟨Rz θ, 0⟩

/-- The pure rotation R_x(θ) as a homogeneous transform. -/
def rotX (θ : ℝ) : HPose := ⟨Rx θ, 0⟩

/-- The translation Trans_x(L) along the local x axis. -/
def transX (L : ℝ) : HPose := ⟨1, exV L⟩

/-- Modelled from the spec: the tail of the forward-kinematics product of
section 4.3, namely Trans_x(prevLen) when no sections remain and
Trans_x(prevLen) · R_x(θ_i) · (tail) for each further section with its joint
angle. -/
def fkFrom : ℝ → List (ArmSectionDescription × ℝ) → HPose
  | prevLen, [] => transX prevLen
  | prevLen, (sec, θ) :: rest =>
    (transX prevLen).comp ((rotX θ).comp (fkFrom (sec.length : ℝ) rest))

/-- Modelled from the spec: get_tip_pose (robot.py lines 116-121 raises
NotImplementedError), following the formula of section 4.3 of the spec:
T_tip = R_z(joints[0]) · ∏ [Trans_x(length_(i-1)) · R_x(joints[i])] ·
Trans_x(length_(N-1)), and the identity transform for an empty arm. -/
def tipPose (secs : List ArmSectionDescription) (joints : List ℝ) : HPose :=
  match secs, joints with
  | [], _ => HPose.identity
  | _ :: _, [] => HPose.identity
  | sec :: rest, θ0 :: js => (rotZ θ0).comp (fkFrom (sec.length : ℝ) (rest.zip js))

/-- Modelled from the spec: get_tip_position (robot.py lines 123-128 raise
NotImplementedError) is the translation column of the tip pose. -/
def tipPosition (secs : List ArmSectionDescription) (joints : List ℝ) : Vec3 :=
  (tipPose secs joints).trans

/-- Modelled from the spec: the tip pose of the arm at its current joint
state. -/
def RobotArm.get_tip_pose (arm : RobotArm) : HPose :=
  tipPose arm.arm_sections (arm.joints.map fun q => (q : ℝ))

/-- Modelled from the spec: the tip position of the arm at its current joint
state. -/
def RobotArm.get_tip_position (arm : RobotArm) : Vec3 :=
  arm.get_tip_pose.trans

theorem Rz_zero : Rz 0 = 1 := by
  ext i j
  fin_cases i <;> fin_cases j <;>
    simp [Rz, Matrix.one_apply, Matrix.vecHead, Matrix.vecTail]

/-- At joint angle 0 the arm of one section has tip pose Trans_x(L). -/
theorem tipPose_single (r L : ℚ) (tmin tmax : Option ℚ) :
    tipPose [⟨r, L, tmin, tmax⟩] [0] = transX (L : ℝ) := by
  show (rotZ 0).comp (transX (L : ℝ)) = transX (L : ℝ)
  ext : 1
  · show Rz 0 * 1 = 1
    rw [Rz_zero, mul_one]
  · show toVec3 ((Rz 0).mulVec (exV (L : ℝ))) + 0 = exV (L : ℝ)
    rw [add_zero, Rz_zero]
    show Matrix.mulVec 1 (exV (L : ℝ)) = exV (L : ℝ)
    rw [Matrix.one_mulVec]

/-- The default joint vector of a one-section arm without limits, cast to
the reals, is the single angle 0. -/
theorem init_single_joints_cast (r L : ℚ) :
    ((RobotArm.init [⟨r, L, none, none⟩]).joints.map fun q => (q : ℝ)) = [0] := by
  simp [RobotArm.init, defaultJoint]

/-- An arm of one unbounded section of length L has tip pose Trans_x(L). -/
theorem get_tip_pose_single (r L : ℚ) :
    (RobotArm.init [⟨r, L, none, none⟩]).get_tip_pose = transX (L : ℝ) := by
  rw [RobotArm.get_tip_pose, init_single_joints_cast]
  exact tipPose_single r L none none

/-- C3 amended: for an arm built from a single unbounded section of length
L, whose joint defaults to 0, the tip pose given by the forward-kinematics
formula of the spec is R_z(0) · Trans_x(L) = Trans_x(L), so the tip position
is (L, 0, 0) along the world x axis (not (0, 0, L)). -/
theorem single_section_tip (r L : ℚ) :
    (RobotArm.init [⟨r, L, none, none⟩]).get_tip_pose = (rotZ 0).comp (transX (L : ℝ)) ∧
    (RobotArm.init [⟨r, L, none, none⟩]).get_tip_pose = transX (L : ℝ) ∧
    (RobotArm.init [⟨r, L, none, none⟩]).get_tip_position = exV (L : ℝ) := by
  have h := get_tip_pose_single r L
  refine ⟨?_, h, ?_⟩
  · rw [h]
    symm
    exact tipPose_single r L none none
  · rw [RobotArm.get_tip_position, h]
    rfl

/-- C3 counterexample: for a single section of length 1 at joint angle 0,
the tip position given by the forward-kinematics formula of spec section 4.3
is (1, 0, 0), on the world x axis, and differs from the claimed (0, 0, 1):
the two halves of the claim contradict each other, and the normative formula
puts the first link along x at zero rotation. -/
theorem single_section_tip_not_z :
    (RobotArm.init [⟨1, 1, none, none⟩]).get_tip_position = toVec3 ![1, 0, 0] ∧
    (RobotArm.init [⟨1, 1, none, none⟩]).get_tip_position ≠ toVec3 ![0, 0, 1] := by
  have h : (RobotArm.init [⟨1, 1, none, none⟩]).get_tip_position = toVec3 ![1, 0, 0] := by
    rw [RobotArm.get_tip_position, get_tip_pose_single]
    show exV ((1 : ℚ) : ℝ) = toVec3 ![1, 0, 0]
    rw [exV]
    norm_num
  refine ⟨h, ?_⟩
  rw [h]
  intro hc
  have h0 := congrArg (fun v : Vec3 => v 0) hc
  simp [toVec3] at h0

@[simp] theorem toVec3_coe (v : Vec3) : toVec3 v = v := rfl

@[simp] theorem comp_rot (p q : HPose) : (p.comp q).rot = p.rot * q.rot := rfl

@[simp] theorem comp_trans (p q : HPose) :
    (p.comp q).trans = toVec3 (p.rot.mulVec q.trans) + p.trans := rfl

theorem Rz_orth (θ : ℝ) : (Rz θ)ᵀ * Rz θ = 1 := by
  ext i j
  fin_cases i <;> fin_cases j <;>
      simp [Rz, Matrix.mul_apply, Fin.sum_univ_three, Matrix.one_apply,
        Matrix.vecHead, Matrix.vecTail]
  all_goals nlinarith [Real.sin_sq_add_cos_sq θ]

theorem Rx_orth (θ : ℝ) : (Rx θ)ᵀ * Rx θ = 1 := by
  ext i j
  fin_cases i <;> fin_cases j <;>
      simp [Rx, Matrix.mul_apply, Fin.sum_univ_three, Matrix.one_apply,
        Matrix.vecHead, Matrix.vecTail]
  all_goals nlinarith [Real.sin_sq_add_cos_sq θ]

theorem orth_mul {A B : Mat3} (hA : Aᵀ * A = 1) (hB : Bᵀ * B = 1) :
    (A * B)ᵀ * (A * B) = 1 := by
  rw [Matrix.transpose_mul]
  calc Bᵀ * Aᵀ * (A * B) = Bᵀ * (Aᵀ * A * B) := by rw [mul_assoc, mul_assoc]
    _ = Bᵀ * B := by rw [hA, one_mul]
    _ = 1 := hB

/-- An orthogonal rotation block preserves the dot product of a vector with
itself. -/
theorem mulVec_dotProduct_self (R : Mat3) (h : Rᵀ * R = 1) (v : Fin 3 → ℝ) :
    Matrix.dotProduct (R.mulVec v) (R.mulVec v) = Matrix.dotProduct v v := by
  rw [Matrix.dotProduct_mulVec, Matrix.vecMul_mulVec, h, Matrix.vecMul_one]

/-- An orthogonal rotation block preserves the Euclidean norm. -/
theorem norm_mulVec_of_orth (R : Mat3) (h : Rᵀ * R = 1) (v : Vec3) :
    ‖toVec3 (R.mulVec v)‖ = ‖v‖ := by
  rw [EuclideanSpace.norm_eq, EuclideanSpace.norm_eq]
  congr 1
  have hd := mulVec_dotProduct_self R h v
  simp only [Matrix.dotProduct] at hd
  simpa [toVec3, Real.norm_eq_abs, sq_abs, pow_two] using hd

theorem norm_exV (L : ℝ) : ‖exV L‖ = |L| := by
  rw [EuclideanSpace.norm_eq]
  simp [exV, toVec3, Fin.sum_univ_three, Real.norm_eq_abs, sq_abs,
    Real.sqrt_sq_eq_abs]

/-- The rotation block of the forward-kinematics tail is orthogonal. -/
theorem fkFrom_rot_orth (pairs : List (ArmSectionDescription × ℝ)) (L : ℝ) :
    ((fkFrom L pairs).rot)ᵀ * (fkFrom L pairs).rot = 1 := by
  induction pairs generalizing L with
  | nil => simp [fkFrom, transX, Matrix.transpose_one]
  | cons hd tl ih =>
    obtain ⟨sec, θ⟩ := hd
    simp only [fkFrom, comp_rot]
    have h1 : ((transX L).rot)ᵀ * (transX L).rot = 1 := by
      simp [transX, Matrix.transpose_one]
    exact orth_mul h1 (orth_mul (Rx_orth θ) (ih _))

/-- The rotation block of any tip pose is orthogonal. -/
theorem tipPose_rot_orth (secs : List ArmSectionDescription) (js : List ℝ) :
    ((tipPose secs js).rot)ᵀ * (tipPose secs js).rot = 1 := by
  match secs, js with
  | [], _ => simp [tipPose, HPose.identity, Matrix.transpose_one]
  | _ :: _, [] => simp [tipPose, HPose.identity, Matrix.transpose_one]
  | sec :: rest, θ :: js =>
    simp only [tipPose, comp_rot]
    exact orth_mul (Rz_orth θ) (fkFrom_rot_orth _ _)

/-- The sum of the section lengths of an arm. -/
def sumLengths (secs : List ArmSectionDescription) : ℚ :=
  (secs.map fun sec => sec.length).sum

theorem sumLengths_cons (sec : ArmSectionDescription) (l : List ArmSectionDescription) :
    sumLengths (sec :: l) = sec.length + sumLengths l := by
  simp [sumLengths]

theorem sumLengths_nonneg (l : List ArmSectionDescription)
    (h : ∀ sec ∈ l, 0 ≤ sec.length) : 0 ≤ sumLengths l := by
  refine List.sum_nonneg ?_
  intro x hx
  obtain ⟨sec, hsec, rfl⟩ := List.mem_map.1 hx
  exact h sec hsec

/-- Dropping the sections past the zipped joints cannot increase the total
length when all lengths are nonnegative. -/
theorem sumLengths_zip_fst_le (l : List ArmSectionDescription) (js : List ℝ)
    (h : ∀ sec ∈ l, 0 ≤ sec.length) :
    sumLengths ((l.zip js).map Prod.fst) ≤ sumLengths l := by
  induction l generalizing js with
  | nil => simp [sumLengths]
  | cons s t ih =>
    cases js with
    | nil =>
      simp only [List.zip_nil_right, List.map_nil]
      exact sumLengths_nonneg _ h
    | cons j js =>
      rw [List.zip_cons_cons, List.map_cons, sumLengths_cons, sumLengths_cons]
      have := ih js fun sec hsec => h sec (List.mem_cons_of_mem _ hsec)
      linarith

/-- The translation of the forward-kinematics tail is bounded by the leading
offset plus the zipped section lengths. -/
theorem fkFrom_trans_norm_le (pairs : List (ArmSectionDescription × ℝ)) :
    ∀ L : ℝ, 0 ≤ L → (∀ p ∈ pairs, 0 ≤ p.1.length) →
    ‖(fkFrom L pairs).trans‖ ≤ L + ((sumLengths (pairs.map Prod.fst) : ℚ) : ℝ) := by
  induction pairs with
  | nil =>
    intro L hL _
    simp [fkFrom, transX, norm_exV, abs_of_nonneg hL, sumLengths]
  | cons hd tl ih =>
    intro L hL hp
    obtain ⟨sec, θ⟩ := hd
    have hsec : (0 : ℝ) ≤ ((sec.length : ℚ) : ℝ) := by
      exact_mod_cast hp (sec, θ) (List.mem_cons_self _ _)
    have hF := ih ((sec.length : ℚ) : ℝ) hsec
      (fun p hmem => hp p (List.mem_cons_of_mem _ hmem))
    have htr : (fkFrom L ((sec, θ) :: tl)).trans =
        toVec3 ((Rx θ).mulVec (fkFrom ((sec.length : ℚ) : ℝ) tl).trans) + exV L := by
      simp [fkFrom, HPose.comp, transX, rotX, Matrix.one_mulVec]
    rw [htr]
    calc ‖toVec3 ((Rx θ).mulVec (fkFrom ((sec.length : ℚ) : ℝ) tl).trans) + exV L‖
        ≤ ‖toVec3 ((Rx θ).mulVec (fkFrom ((sec.length : ℚ) : ℝ) tl).trans)‖ + ‖exV L‖ :=
          norm_add_le _ _
      _ = ‖(fkFrom ((sec.length : ℚ) : ℝ) tl).trans‖ + |L| := by
          rw [norm_mulVec_of_orth _ (Rx_orth θ), norm_exV]
      _ ≤ L + ((sumLengths (((sec, θ) :: tl).map Prod.fst) : ℚ) : ℝ) := by
          rw [abs_of_nonneg hL, List.map_cons, sumLengths_cons]
          push_cast
          linarith

/-- The tip of the arm never lies farther from the base than the sum of the
section lengths, for any joint vector, when all lengths are nonnegative. -/
theorem tipPose_trans_norm_le (secs : List ArmSectionDescription) (js : List ℝ)
    (h : ∀ sec ∈ secs, 0 ≤ sec.length) :
    ‖(tipPose secs js).trans‖ ≤ ((sumLengths secs : ℚ) : ℝ) := by
  have hsum : (0 : ℚ) ≤ sumLengths secs := sumLengths_nonneg secs h
  match secs, js with
  | [], js =>
    show ‖(0 : Vec3)‖ ≤ _
    rw [norm_zero]
    exact_mod_cast hsum
  | sec :: rest, [] =>
    show ‖(0 : Vec3)‖ ≤ _
    rw [norm_zero]
    exact_mod_cast hsum
  | sec :: rest, θ :: js =>
    have htr : (tipPose (sec :: rest) (θ :: js)).trans =
        toVec3 ((Rz θ).mulVec (fkFrom ((sec.length : ℚ) : ℝ) (rest.zip js)).trans) := by
      simp [tipPose, HPose.comp, rotZ]
    rw [htr, norm_mulVec_of_orth _ (Rz_orth θ)]
    have hsec : (0 : ℝ) ≤ ((sec.length : ℚ) : ℝ) := by
      exact_mod_cast h sec (List.mem_cons_self _ _)
    have hrest : ∀ p ∈ rest.zip js, (0 : ℚ) ≤ p.1.length := by
      intro p hp
      exact h p.1 (List.mem_cons_of_mem _ (List.of_mem_zip hp).1)
    have hb := fkFrom_trans_norm_le (rest.zip js) ((sec.length : ℚ) : ℝ) hsec hrest
    have hz : sumLengths ((rest.zip js).map Prod.fst) ≤ sumLengths rest :=
      sumLengths_zip_fst_le rest js
        (fun s hs => h s (List.mem_cons_of_mem _ hs))
    have hzr : ((sumLengths ((rest.zip js).map Prod.fst) : ℚ) : ℝ) ≤
        ((sumLengths rest : ℚ) : ℝ) := by exact_mod_cast hz
    rw [sumLengths_cons]
    push_cast at hb ⊢
    linarith

/-- The fixed positional tolerance of the IK contract: 1e-4 length units. -/
def tolPos : ℝ := 1 / 10000

/-- The fixed angular tolerance of the IK contract: 1e-3 radians. -/
def tolAng : ℝ := 1 / 1000

/-- The angle of the relative rotation between two rotation blocks. -/
def angDist (R1 R2 : Mat3) : ℝ :=
  Real.arccos ((Matrix.trace (R1ᵀ * R2) - 1) / 2)

/-- Two poses agree within the fixed positional and angular tolerances. -/
def poseClose (p q : HPose) : Prop :=
  dist p.trans q.trans ≤ tolPos ∧ angDist p.rot q.rot ≤ tolAng

/-- A real joint vector lies within the limits of the sections, elementwise
and of matching length. -/
def withinLimitsAll (secs : List ArmSectionDescription) (js : List ℝ) : Prop :=
  List.Forall₂ (fun sec θ =>
    (∀ a ∈ sec.theta_min, ((a : ℚ) : ℝ) ≤ θ) ∧
    (∀ b ∈ sec.theta_max, θ ≤ ((b : ℚ) : ℝ))) secs js

/-- Modelled from the spec: the success contract of get_joints_from_pose
(robot.py lines 130-144 raise NotImplementedError) — the returned joints are
within the section limits and realize the target pose within the fixed
tolerances. -/
def ikSpec (secs : List ArmSectionDescription) (target : HPose) (js : List ℝ) : Prop :=
  withinLimitsAll secs js ∧ poseClose (tipPose secs js) target

/-- Modelled from the spec: some joint vector satisfies the IK contract for
the target. -/
def ikSolvable (secs : List ArmSectionDescription) (target : HPose) : Prop :=
  ∃ js, ikSpec secs target js

/-- Modelled from the spec: the observable behavior of get_joints_from_pose
(robot.py lines 130-144 raise NotImplementedError): any conforming result
returns a contract-satisfying joint vector when one exists and raises
IKFailure exactly when none does. -/
def ikConforms (secs : List ArmSectionDescription) (target : HPose) :
    Except IKFailure (List ℝ) → Prop
  | .error _ => ¬ ikSolvable secs target
  | .ok js => ikSpec secs target js

/-- A pose whose rotation block is orthogonal is close to itself. -/
theorem poseClose_self (p : HPose) (h : p.rotᵀ * p.rot = 1) : poseClose p p := by
  constructor
  · rw [dist_self]
    norm_num [tolPos]
  · rw [angDist, h, Matrix.trace_one]
    norm_num [Real.arccos_one, tolAng]

/-- C4: for every arm and every joint vector within limits, any behavior of
get_joints_from_pose conforming to the spec contract, at the pose of that
joint vector, returns (does not raise) a joint vector that is within limits
and whose pose matches the given one within the fixed tolerances. -/
theorem ik_round_trip (secs : List ArmSectionDescription) (j : List ℝ)
    (hj : withinLimitsAll secs j) (res : Except IKFailure (List ℝ))
    (hres : ikConforms secs (tipPose secs j) res) :
    ∃ jr, res = Except.ok jr ∧ withinLimitsAll secs jr ∧
      poseClose (tipPose secs jr) (tipPose secs j) := by
  cases res with
  | error e =>
    exact absurd ⟨j, hj, poseClose_self _ (tipPose_rot_orth secs j)⟩ hres
  | ok jr => exact ⟨jr, rfl, hres.1, hres.2⟩

theorem ik_round_trip_witness :
    ∃ jr, (Except.ok [] : Except IKFailure (List ℝ)) = Except.ok jr ∧
      withinLimitsAll [] jr ∧ poseClose (tipPose [] jr) (tipPose [] []) :=
  ik_round_trip [] [] List.Forall₂.nil (Except.ok [])
    ⟨List.Forall₂.nil, poseClose_self _ (tipPose_rot_orth [] [])⟩

/-- C5 amended: with nonnegative section lengths, a target pose whose
position is farther from the base than the sum of the section lengths plus
the positional tolerance makes every conforming get_joints_from_pose raise
IKFailure; within the tolerance band above the sum of lengths the claim
fails. -/
theorem ik_unreachable (secs : List ArmSectionDescription)
    (hsec : ∀ sec ∈ secs, 0 ≤ sec.length) (target : HPose)
    (hfar : ((sumLengths secs : ℚ) : ℝ) + tolPos < ‖target.trans‖)
    (res : Except IKFailure (List ℝ)) (hres : ikConforms secs target res) :
    ∃ e, res = Except.error e := by
  cases res with
  | error e => exact ⟨e, rfl⟩
  | ok jr =>
    exfalso
    have h1 : dist (tipPose secs jr).trans target.trans ≤ tolPos := hres.2.1
    have h2 := tipPose_trans_norm_le secs jr hsec
    have h3 : ‖target.trans‖ - ‖(tipPose secs jr).trans‖ ≤
        dist target.trans (tipPose secs jr).trans := by
      rw [dist_eq_norm]
      exact norm_sub_norm_le _ _
    rw [dist_comm] at h3
    linarith

theorem ik_unreachable_witness :
    ∃ e, (Except.error IKFailure.mk : Except IKFailure (List ℝ)) = Except.error e := by
  refine ik_unreachable [] (by simp) ⟨1, exV 1⟩ ?_ (Except.error IKFailure.mk) ?_
  · show ((sumLengths [] : ℚ) : ℝ) + tolPos < ‖exV 1‖
    rw [norm_exV]
    norm_num [sumLengths, tolPos]
  · rintro ⟨js, hlim, hclose⟩
    have h1 : dist (tipPose [] js).trans (exV 1) ≤ tolPos := hclose.1
    have h0 : (tipPose [] js).trans = (0 : Vec3) := rfl
    rw [h0, dist_eq_norm, zero_sub, norm_neg, norm_exV] at h1
    norm_num [tolPos] at h1

def nearTarget : HPose := ⟨1, exV (1 / 100000)⟩

/-- C5 counterexample: for the legal empty arm and a target at distance
1/100000 from the base — strictly greater than the sum 0 of the section
lengths — the IK contract is satisfiable, because the tip already matches
the target within the positional tolerance 1/10000, so a conforming
get_joints_from_pose cannot raise IKFailure; the claim ignores the tolerance
band just beyond the reachable radius. -/
theorem unreachable_claim_counterexample :
    ((sumLengths [] : ℚ) : ℝ) < ‖nearTarget.trans‖ ∧
    ikSolvable [] nearTarget ∧
    ∀ e : IKFailure, ¬ ikConforms [] nearTarget (Except.error e) := by
  have hsolv : ikSolvable [] nearTarget := by
    refine ⟨[], List.Forall₂.nil, ?_, ?_⟩
    · show dist (0 : Vec3) nearTarget.trans ≤ tolPos
      rw [dist_eq_norm, zero_sub, norm_neg]
      show ‖exV (1 / 100000)‖ ≤ tolPos
      rw [norm_exV, abs_of_nonneg (by norm_num : (0 : ℝ) ≤ 1 / 100000)]
      norm_num [tolPos]
    · show angDist (1 : Mat3) nearTarget.rot ≤ tolAng
      have hrot : nearTarget.rot = (1 : Mat3) := rfl
      rw [angDist, hrot, Matrix.transpose_one, one_mul, Matrix.trace_one]
      norm_num [Real.arccos_one, tolAng]
  refine ⟨?_, hsolv, fun e hc => hc hsolv⟩
  show ((sumLengths [] : ℚ) : ℝ) < ‖exV (1 / 100000)‖
  rw [norm_exV, abs_of_nonneg (by norm_num : (0 : ℝ) ≤ 1 / 100000)]
  norm_num [sumLengths]

end

/-! The Scene collaborator (src/src/model/scene.py). -/

abbrev Mat4 := Matrix (Fin 4) (Fin 4) ℚ

/-- Embeds the AttributeError Python raises when an attribute (here copy) is
accessed on None. -/
inductive AttributeError where
  | noneHasNoCopy
  deriving DecidableEq, Repr

/-- Embeds Scene.__init__ and its state (scene.py lines 6-21): the robot and
the robot pose argument, which defaults to None, stored exactly as given —
no identity substitution happens anywhere in the class. -/
structure Scene where
  robot_arm : RobotArm
  robot_pose_stored : Option Mat4

/-- Builds a Scene as Scene.__init__ does. -/
def Scene.init (robot_arm : RobotArm) (robot_pose : Option Mat4) : Scene :=
  ⟨robot_arm, robot_pose⟩

/-- Embeds the Scene.robot_pose property (scene.py lines 31-37): it returns
self._robot_pose.copy(), so when the stored pose is None the attribute
lookup of copy on None raises AttributeError. -/
def Scene.robot_pose (s : Scene) : Except AttributeError Mat4 :=
  match s.robot_pose_stored with
  | none => .error .noneHasNoCopy
  | some p => .ok p

/-- C9: reading robot_pose of a Scene constructed without a robot pose
raises AttributeError (None has no attribute copy) instead of returning the
4x4 identity transform that the spec and the docstrings of scene.py promise:
the claim states the intent and the code crashes. -/
theorem scene_none_pose_attribute_error :
    (Scene.init (RobotArm.init []) none).robot_pose =
      Except.error AttributeError.noneHasNoCopy ∧
    (Scene.init (RobotArm.init []) none).robot_pose ≠ Except.ok (1 : Mat4) :=
  ⟨rfl, fun h => Except.noConfusion h⟩

end Kinematics
